import Mathlib

/-!
# Verification of the recursive research-orchestration engine

Shallow embedding, in Lean 4, of the core components of the repository:

* `src/ai/text-splitter.ts` — `RecursiveCharacterTextSplitter.splitText`
  (the structural splitter) and the providers-side `SemanticTextSplitter`
  with its `semanticChunking` wrapper;
* the providers-side concurrency pool `runWithConcurrency`;
* `deep-research.ts` — `deepResearch` (recursion controller),
  `processSerpResult`, and the SERP-query cache-key construction of
  `generateSerpQueries`;
* `feedback.ts` — `generateFeedback` (extraction/repair protocol) together
  with `validateAcademicInput` / `validateAcademicOutput` from
  `deep-research.ts`;
* `progress-manager.ts` — `ProgressManager.updateProgress` ETA derivation.

JavaScript strings are modelled as `List Char` (one element per UTF-16 code
unit; all concrete inputs used below are ASCII, where the two coincide).
External capabilities (the Gemini generation / embedding calls, the
`js-tiktoken` tokenizer, the float `cosineSimilarity` of the `ai` package,
`JSON.parse`+zod schema validation of free-form model output) are oracle
parameters collected in environment structures; everything else is
translated from the source.  Float arithmetic that the code performs on
small quantities (ETA rates, citation densities) is modelled over `ℚ`; the
modelled comparisons are away from representability boundaries at every
input used in a proof.
-/

/-! ## JavaScript string primitives -/

/-- Whitespace test backing the `\s` regex class and `String.prototype.trim`
(ASCII part; the code only ever feeds ASCII whitespace). -/
def isWs (c : Char) : Bool :=
  c = ' ' || c = '\n' || c = '\t' || c = '\r' || c = '\x0b' || c = '\x0c'

/-- `String.prototype.trim`: drop whitespace from both ends. -/
def jsTrim (s : List Char) : List Char :=
  ((s.dropWhile isWs).reverse.dropWhile isWs).reverse

/-- One step of `replace(/\s+/g, ' ')`: each maximal whitespace run becomes a
single space.  `prevWs` records whether the previous character was part of a
run already replaced. -/
def collapseWsGo : Bool → List Char → List Char
  | _, [] => []
  | prevWs, c :: cs =>
    if isWs c then
      (if prevWs then [] else [' ']) ++ collapseWsGo true cs
    else
      c :: collapseWsGo false cs

/-- `replace(/\s+/g, ' ')`. -/
def collapseWs (s : List Char) : List Char :=
  collapseWsGo false s

/-- The whitespace normalisation `c.replace(/\s+/g, ' ').trim()` applied to
every chunk before `splitText` returns. -/
def normalizeWs (s : List Char) : List Char :=
  jsTrim (collapseWs s)

/-- Search for the first occurrence of (non-empty) `sep`: returns the text
before the separator and the text after it. -/
def findSep (sep : List Char) : List Char → Option (List Char × List Char)
  | [] => none
  | c :: cs =>
    if sep.isPrefixOf (c :: cs) then
      some ([], (c :: cs).drop sep.length)
    else
      (findSep sep cs).map (fun pr => (c :: pr.1, pr.2))

/-- Fuelled worker for `String.prototype.split(sep)`; each recursion step
consumes at least `sep.length ≥ 1` characters, so fuel `s.length + 1` is
always sufficient. -/
def jsSplitGo (sep : List Char) : Nat → List Char → List (List Char)
  | 0, s => [s]
  | fuel + 1, s =>
    match findSep sep s with
    | none => [s]
    | some (pre, post) => pre :: jsSplitGo sep fuel post

/-- `String.prototype.split(sep)` for a non-empty literal separator. -/
def jsSplit (sep : List Char) (s : List Char) : List (List Char) :=
  jsSplitGo sep (s.length + 1) s

/-! ## `RecursiveCharacterTextSplitter` (structural splitter)

`src/ai/text-splitter.ts`, lines 12–100. -/

/-- Configuration of the structural splitter: `chunkSize`, `chunkOverlap`,
`separators` (the constructor rejects `chunkOverlap ≥ chunkSize`). -/
structure SplitterCfg where
  chunkSize : Nat
  chunkOverlap : Nat
  separators : List (List Char)

/-- Constructor defaults of `RecursiveCharacterTextSplitter`. -/
def defaultSeparators : List (List Char) :=
  ['\n', '\n'] :: ['\n'] :: ['.', ' '] :: ['.'] :: [',', ' '] :: [','] :: [' '] :: [[]]

/-- `new RecursiveCharacterTextSplitter(params)`: applies the defaults and
throws (`Except.error`) when `chunkOverlap >= chunkSize`. -/
def mkRecursiveCharacterTextSplitter (chunkSize chunkOverlap : Option Nat)
    (separators : Option (List (List Char))) : Except String SplitterCfg :=
  let cfg : SplitterCfg :=
    { chunkSize := chunkSize.getD 50
      chunkOverlap := chunkOverlap.getD 10
      separators := separators.getD defaultSeparators }
  if cfg.chunkSize ≤ cfg.chunkOverlap then
    Except.error "Cannot have chunkOverlap >= chunkSize"
  else
    Except.ok cfg

/-- The hard-cut fallback of `splitText`: fixed-width slices
`trimmed.slice(i, i + target)` for `i = 0, step, 2·step, …`, trimmed, empty
pieces dropped (the loop `for (let i = 0; i < trimmed.length; i += step)`
runs for exactly `⌈length / step⌉` iterations). -/
def hardCut (target step : Nat) (t : List Char) : List (List Char) :=
  ((List.range ((t.length + step - 1) / step)).map
      (fun k => jsTrim ((t.drop (k * step)).take target))).filter (fun p => p ≠ [])

/-- The greedy merge loop inside `splitRecursive`: walk the separator-split
parts, growing `buffer` while the space-joined candidate stays within
`target`; over-long parts are handed to `deeper` (the recursion at the next
separator index). -/
def mergeLoop (target : Nat) (deeper : List Char → List (List Char)) :
    List (List Char) → List Char → List (List Char)
  | [], buffer => if buffer = [] then [] else [buffer]
  | part :: parts, buffer =>
    let candidate := if buffer = [] then part else jsTrim (buffer ++ ' ' :: part)
    if candidate.length ≤ target then
      mergeLoop target deeper parts candidate
    else
      (if buffer = [] then [] else [buffer]) ++
        (if target < part.length then
          deeper part ++ mergeLoop target deeper parts []
        else
          mergeLoop target deeper parts part)

/-- `splitRecursive(t, sepIdx)`, with the separator list from index `sepIdx`
onward as the recursion argument (`sepIdx >= this.separators.length` is the
`[]` case). -/
def splitRec (target step : Nat) : List (List Char) → List Char → List (List Char)
  | [] => fun t =>
    let trimmed := jsTrim t
    if trimmed = [] then []
    else if trimmed.length ≤ target then [trimmed]
    else hardCut target step trimmed
  | sep :: rest => fun t =>
    let trimmed := jsTrim t
    if trimmed = [] then []
    else if trimmed.length ≤ target then [trimmed]
    else if sep = [] then hardCut target step trimmed
    else
      mergeLoop target (splitRec target step rest)
        (((jsSplit sep trimmed).map jsTrim).filter (fun p => p ≠ [])) []

/-- `RecursiveCharacterTextSplitter.splitText`: run `splitRecursive` from the
first separator, then normalise whitespace of every chunk and drop empties. -/
def splitText (cfg : SplitterCfg) (text : List Char) : List (List Char) :=
  if text = [] then []
  else
    let target := cfg.chunkSize
    let step := max 1 (target - cfg.chunkOverlap)
    ((splitRec target step cfg.separators text).map normalizeWs).filter (fun c => c ≠ [])

example :
    splitText { chunkSize := 10, chunkOverlap := 2,
                separators := defaultSeparators } "hello  world".toList
      = ["hello".toList, "world".toList] := by decide

example :
    splitText { chunkSize := 140, chunkOverlap := 20,
                separators := defaultSeparators } "A.\n\nB.".toList
      = ["A. B.".toList] := by decide

/-! ## C4 — structural splitter chunk bounds -/

theorem dropWhile_length_le (p : Char → Bool) (s : List Char) :
    (s.dropWhile p).length ≤ s.length := by
  induction s with
  | nil => simp
  | cons c cs ih =>
    by_cases h : p c
    · simp [List.dropWhile, h]; omega
    · simp [List.dropWhile, h]

theorem jsTrim_length_le (s : List Char) : (jsTrim s).length ≤ s.length := by
  unfold jsTrim
  calc ((s.dropWhile isWs).reverse.dropWhile isWs).reverse.length
      = ((s.dropWhile isWs).reverse.dropWhile isWs).length := by simp
    _ ≤ (s.dropWhile isWs).reverse.length := dropWhile_length_le _ _
    _ = (s.dropWhile isWs).length := by simp
    _ ≤ s.length := dropWhile_length_le _ _

theorem collapseWsGo_length_le (b : Bool) (s : List Char) :
    (collapseWsGo b s).length ≤ s.length := by
  induction s generalizing b with
  | nil => simp [collapseWsGo]
  | cons c cs ih =>
    by_cases h : isWs c
    · cases b <;> simp [collapseWsGo, h] <;> exact le_trans (ih true) (by omega)
    · simp only [collapseWsGo, h, if_false, Bool.false_eq_true, List.length_cons]
      exact Nat.succ_le_succ (ih false)

theorem normalizeWs_length_le (s : List Char) : (normalizeWs s).length ≤ s.length :=
  le_trans (jsTrim_length_le _) (collapseWsGo_length_le _ _)

theorem hardCut_bound (target step : Nat) (t : List Char) :
    ∀ c ∈ hardCut target step t, c.length ≤ target := by
  intro c hc
  simp only [hardCut, List.mem_filter, List.mem_map, List.mem_range] at hc
  obtain ⟨⟨k, _, rfl⟩, _⟩ := hc
  exact le_trans (jsTrim_length_le _) (by simp)

theorem mergeLoop_bound (target : Nat) (deeper : List Char → List (List Char))
    (hdeeper : ∀ s, ∀ c ∈ deeper s, c.length ≤ target) :
    ∀ parts buffer, buffer.length ≤ target →
      ∀ c ∈ mergeLoop target deeper parts buffer, c.length ≤ target := by
  intro parts
  induction parts with
  | nil =>
    intro buffer hb c hc
    simp only [mergeLoop] at hc
    by_cases h : buffer = [] <;> simp [h] at hc
    exact hc ▸ hb
  | cons part parts ih =>
    intro buffer hb c hc
    simp only [mergeLoop] at hc
    by_cases hcand :
        (if buffer = [] then part else jsTrim (buffer ++ ' ' :: part)).length ≤ target
    · rw [if_pos hcand] at hc
      exact ih _ hcand c hc
    · rw [if_neg hcand] at hc
      rcases List.mem_append.mp hc with h1 | h2
      · by_cases hbuf : buffer = [] <;> simp [hbuf] at h1
        exact h1 ▸ hb
      · by_cases hlong : target < part.length
        · rw [if_pos hlong] at h2
          rcases List.mem_append.mp h2 with h3 | h4
          · exact hdeeper _ _ h3
          · exact ih _ (by simp) c h4
        · rw [if_neg hlong] at h2
          exact ih _ (by omega) c h2

theorem splitRec_bound (target step : Nat) :
    ∀ seps t, ∀ c ∈ splitRec target step seps t, c.length ≤ target := by
  intro seps
  induction seps with
  | nil =>
    intro t c hc
    simp only [splitRec] at hc
    by_cases h1 : jsTrim t = []
    · simp [h1] at hc
    · rw [if_neg h1] at hc
      by_cases h2 : (jsTrim t).length ≤ target
      · rw [if_pos h2] at hc
        simp at hc
        exact hc ▸ h2
      · rw [if_neg h2] at hc
        exact hardCut_bound _ _ _ c hc
  | cons sep rest ih =>
    intro t c hc
    simp only [splitRec] at hc
    by_cases h1 : jsTrim t = []
    · simp [h1] at hc
    · rw [if_neg h1] at hc
      by_cases h2 : (jsTrim t).length ≤ target
      · rw [if_pos h2] at hc
        simp at hc
        exact hc ▸ h2
      · rw [if_neg h2] at hc
        by_cases h3 : sep = []
        · rw [if_pos h3] at hc
          exact hardCut_bound _ _ _ c hc
        · rw [if_neg h3] at hc
          exact mergeLoop_bound target _ (fun s => ih s) _ [] (by simp) c hc

/-- C4: for every text and every configuration with `chunkOverlap < chunkSize`,
`RecursiveCharacterTextSplitter.splitText` returns only chunks whose length
(after whitespace-run collapsing and trimming) is at most `chunkSize`, and
never returns an empty chunk. -/
theorem splitText_chunk_bounds (cfg : SplitterCfg) (text : List Char)
    (_hvalid : cfg.chunkOverlap < cfg.chunkSize) :
    ∀ c ∈ splitText cfg text, c.length ≤ cfg.chunkSize ∧ c ≠ [] := by
  intro c hc
  unfold splitText at hc
  by_cases h0 : text = []
  · simp [h0] at hc
  · rw [if_neg h0] at hc
    simp only [List.mem_filter, List.mem_map, decide_eq_true_eq] at hc
    obtain ⟨⟨raw, hraw, rfl⟩, hne⟩ := hc
    refine ⟨?_, hne⟩
    exact le_trans (normalizeWs_length_le raw)
      (splitRec_bound cfg.chunkSize _ cfg.separators text raw hraw)

/-- Witness for C4 at a concrete configuration and text. -/
theorem splitText_chunk_bounds_witness :
    (10 : Nat) < 50 ∧
      ∀ c ∈ splitText { chunkSize := 50, chunkOverlap := 10,
                        separators := defaultSeparators }
          "One sentence.  And a second, longer sentence that flows on.".toList,
        c.length ≤ 50 ∧ c ≠ [] :=
  ⟨by decide,
    splitText_chunk_bounds
      { chunkSize := 50, chunkOverlap := 10, separators := defaultSeparators }
      "One sentence.  And a second, longer sentence that flows on.".toList
      (by decide)⟩

/-! ## `runWithConcurrency` — the providers-side concurrency pool

`src/ai/providers.ts`: workers are started in index order; each result is
stored at the slot of its input index; a worker rejection is propagated by
`.catch(reject)`, settling the whole returned promise with that error.  In
the pure model a worker is a function into `Except`; with deterministic
synchronous workers completion order equals dispatch order, so the settled
value is either the full in-order result list or the error of the first
(lowest-index) failing worker.  The model assumes `1 ≤ limit` (every call
site clamps the limit into `[1, 64]`); the limit does not affect the settled
value, only in-flight scheduling, so it is an unused parameter here. -/

/-- Index-threaded traversal backing `runWithConcurrency`. -/
def runWithConcurrencyGo {T R E : Type} (worker : T → Nat → Except E R) :
    List T → Nat → Except E (List R)
  | [], _ => Except.ok []
  | x :: xs, i =>
    match worker x i with
    | Except.error e => Except.error e
    | Except.ok r =>
      match runWithConcurrencyGo worker xs (i + 1) with
      | Except.error e => Except.error e
      | Except.ok rs => Except.ok (r :: rs)

/-- `runWithConcurrency(items, limit, worker)`. -/
def runWithConcurrency {T R E : Type} (items : List T) (_limit : Nat)
    (worker : T → Nat → Except E R) : Except E (List R) :=
  runWithConcurrencyGo worker items 0

theorem runWithConcurrencyGo_ok {T R E : Type} (worker : T → Nat → Except E R) :
    ∀ (items : List T) (i : Nat),
      (∀ k x, items.get? k = some x → (worker x (i + k)).isOk) →
      ∃ rs, runWithConcurrencyGo worker items i = Except.ok rs ∧
        rs.length = items.length ∧
        ∀ k x r, items.get? k = some x → worker x (i + k) = Except.ok r →
          rs.get? k = some r := by
  intro items
  induction items with
  | nil => exact fun i _ => ⟨[], rfl, rfl, by simp⟩
  | cons x xs ih =>
    intro i hok
    have hx := hok 0 x (by simp)
    rw [Nat.add_zero] at hx
    obtain ⟨r, hr⟩ : ∃ r, worker x i = Except.ok r := by
      cases h : worker x i with
      | error e => rw [h] at hx; exact absurd hx (by simp [Except.isOk, Except.toBool])
      | ok r => exact ⟨r, rfl⟩
    obtain ⟨rs, hrs, hlen, hidx⟩ := ih (i + 1) (fun k y hy => by
      have := hok (k + 1) y (by simpa using hy)
      simpa [Nat.add_assoc, Nat.add_comm 1 k] using this)
    refine ⟨r :: rs, ?_, by simp [hlen], ?_⟩
    · simp [runWithConcurrencyGo, hr, hrs]
    · intro k y rr hy hw
      cases k with
      | zero =>
        simp only [List.get?] at hy
        cases hy
        rw [Nat.add_zero] at hw
        rw [hr] at hw
        cases hw
        rfl
      | succ k =>
        simp only [List.get?] at hy ⊢
        refine hidx k y rr hy ?_
        rw [show i + 1 + k = i + (k + 1) by omega]
        exact hw

theorem runWithConcurrencyGo_error {T R E : Type} (worker : T → Nat → Except E R) :
    ∀ (items : List T) (i k : Nat) (x : T) (e : E),
      items.get? k = some x → worker x (i + k) = Except.error e →
      ∀ rs, runWithConcurrencyGo worker items i ≠ Except.ok rs := by
  intro items
  induction items with
  | nil => intro i k x e hx; simp at hx
  | cons y ys ih =>
    intro i k x e hx hw rs hok
    cases k with
    | zero =>
      simp only [List.get?] at hx
      cases hx
      rw [Nat.add_zero] at hw
      simp [runWithConcurrencyGo, hw] at hok
    | succ k =>
      simp only [List.get?] at hx
      simp only [runWithConcurrencyGo] at hok
      cases hy : worker y i with
      | error e2 => rw [hy] at hok; exact absurd hok (by simp)
      | ok r =>
        rw [hy] at hok
        cases hrec : runWithConcurrencyGo worker ys (i + 1) with
        | error e2 => rw [hrec] at hok; exact absurd hok (by simp)
        | ok rs2 =>
          refine ih (i + 1) k x e hx ?_ rs2 hrec
          rw [show i + 1 + k = i + (k + 1) by omega]
          exact hw

/-- C1 (amended): the batch call is order-preserving when every worker
succeeds — the output has one slot per input, `result[k] = worker(items[k], k)`
— but a single worker failure is **not** captured per item: it makes the
whole `runWithConcurrency` promise reject, so no result list is produced. -/
theorem runWithConcurrency_spec {T R E : Type} (items : List T) (limit : Nat)
    (worker : T → Nat → Except E R) :
    ((∀ k x, items.get? k = some x → (worker x k).isOk) →
      ∃ rs, runWithConcurrency items limit worker = Except.ok rs ∧
        rs.length = items.length ∧
        ∀ k x r, items.get? k = some x → worker x k = Except.ok r →
          rs.get? k = some r) ∧
    (∀ k x e, items.get? k = some x → worker x k = Except.error e →
      ∀ rs, runWithConcurrency items limit worker ≠ Except.ok rs) := by
  constructor
  · intro hok
    have := runWithConcurrencyGo_ok worker items 0 (fun k x hx => by
      simpa using hok k x hx)
    simpa [runWithConcurrency] using this
  · intro k x e hx hw
    have := runWithConcurrencyGo_error worker items 0 k x e hx (by simpa using hw)
    simpa [runWithConcurrency] using this

/-- Concrete failing worker: item `0` rejects, item `1` resolves. -/
def cxWorker : Nat → Nat → Except Unit Nat :=
  fun item _ => if item = 0 then Except.error () else Except.ok item

/-- C1 counterexample: with two items whose worker fails only on the first,
`runWithConcurrency` settles with the error — the whole batch is rejected
(`Except.error`, never an `Except.ok` result list) even though the sibling
item's worker succeeds on its own, so the call does not resolve with a
per-item result/error for every item as the claim states. -/
theorem runWithConcurrency_counterexample :
    runWithConcurrency [0, 1] 2 cxWorker = Except.error () ∧
      cxWorker 1 1 = Except.ok 1 :=
  ⟨rfl, rfl⟩

/-- Witness for the amended C1 theorem at a concrete all-succeeding batch. -/
theorem runWithConcurrency_spec_witness :
    ∃ rs, runWithConcurrency [5, 7] 2 (fun (x : Nat) (_ : Nat) =>
        (Except.ok (x + 1) : Except Unit Nat)) = Except.ok rs ∧
      rs.length = 2 ∧ rs.get? 0 = some 6 ∧ rs.get? 1 = some 8 := by
  obtain ⟨rs, h1, h2, h3⟩ :=
    (runWithConcurrency_spec [5, 7] 2 (fun (x : Nat) (_ : Nat) =>
        (Except.ok (x + 1) : Except Unit Nat))).1 (by intro k x _; rfl)
  refine ⟨rs, h1, by simpa using h2, ?_, ?_⟩
  · exact h3 0 5 6 (by decide) rfl
  · exact h3 1 7 8 (by decide) rfl

/-! ## C7 — the SERP sub-query cache fingerprint

`deep-research.ts`, `generateSerpQueries`: the cache key is
`JSON.stringify(keyObject)` where `keyObject` starts from
`{rawQuery, numQueries, researchGoal, initialQuery, depth, breadth}`, deletes
every field equal to its default (`numQueries = 3`,
`researchGoal = "Initial query"`, `initialQuery === rawQuery`, `depth = 1`,
`breadth = 1`; an `undefined` `initialQuery` is likewise dropped by
`JSON.stringify`), and appends `learningsHash`, the decimal string of
`learnings.reduce((acc, val) => acc + val.charCodeAt(0), 0)` — the sum of the
**first** UTF-16 code unit of each learning.  `JSON.stringify` with this
fixed key insertion order is injective on the structured key, so the key
object itself stands in for the fingerprint string. -/

/-- First UTF-16 code unit, `val.charCodeAt(0)`, of a non-empty string
(for BMP characters this is the code point). -/
def charCode0 (s : String) : Nat :=
  ((s.toList.head?).getD ' ').toNat

/-- `learnings.reduce((acc, val) => acc + val.charCodeAt(0), 0)` rendered with
`String(…)`; an empty list yields `''`, and any empty learning makes
`charCodeAt(0)` return `NaN`, which propagates through the sum and prints as
`"NaN"`. -/
def learningsHash (learnings : List String) : String :=
  if learnings = [] then ""
  else if learnings.any (fun s => s = "") then "NaN"
  else toString (learnings.foldl (fun acc s => acc + charCode0 s) 0)

/-- The canonical descriptor serialised into the cache key; `none` means the
field was deleted before `JSON.stringify`. -/
structure SerpKey where
  rawQuery : String
  numQueries : Option Int
  researchGoal : Option String
  initialQuery : Option String
  depth : Option Int
  breadth : Option Int
  hashOfLearnings : String
deriving DecidableEq, Repr

/-- The cache-key construction of `generateSerpQueries`. -/
def serpQueryCacheKey (rawQuery : String) (numQueries : Int)
    (researchGoal : String) (initialQuery : Option String)
    (depth breadth : Int) (learnings : List String) : SerpKey :=
  { rawQuery := rawQuery
    numQueries := if numQueries = 3 then none else some numQueries
    researchGoal := if researchGoal = "Initial query" then none else some researchGoal
    initialQuery :=
      match initialQuery with
      | none => none
      | some v => if v = rawQuery then none else some v
    depth := if depth = 1 then none else some depth
    breadth := if breadth = 1 then none else some breadth
    hashOfLearnings := learningsHash learnings }

/-- C7 counterexample: the learnings histories `["ab"]` and `["ac"]` are
different, all other descriptor fields agree, yet the computed fingerprints
are identical — the first-code-unit sum cannot tell them apart (it only sees
`'a'` in both), so semantically different histories do *not* always produce
different fingerprints. -/
theorem serpQueryCacheKey_counterexample :
    serpQueryCacheKey "q" 3 "Initial query" none 1 1 ["ab"]
        = serpQueryCacheKey "q" 3 "Initial query" none 1 1 ["ac"] ∧
      (["ab"] : List String) ≠ ["ac"] := by
  constructor
  · decide
  · decide

/-- C7 (amended): the fingerprint does omit every field equal to its
documented default (and keeps any non-default field), and it includes a hash
summary of the learnings list — but that summary is only the sum of each
learning's first UTF-16 code unit, so distinct histories with equal sums
collide. -/
theorem serpQueryCacheKey_spec (rawQuery : String) (numQueries : Int)
    (researchGoal : String) (initialQuery : Option String)
    (depth breadth : Int) (learnings : List String) :
    ((serpQueryCacheKey rawQuery numQueries researchGoal initialQuery
        depth breadth learnings).numQueries = none ↔ numQueries = 3) ∧
    ((serpQueryCacheKey rawQuery numQueries researchGoal initialQuery
        depth breadth learnings).researchGoal = none ↔
      researchGoal = "Initial query") ∧
    ((serpQueryCacheKey rawQuery numQueries researchGoal initialQuery
        depth breadth learnings).initialQuery = none ↔
      initialQuery = none ∨ initialQuery = some rawQuery) ∧
    ((serpQueryCacheKey rawQuery numQueries researchGoal initialQuery
        depth breadth learnings).depth = none ↔ depth = 1) ∧
    ((serpQueryCacheKey rawQuery numQueries researchGoal initialQuery
        depth breadth learnings).breadth = none ↔ breadth = 1) ∧
    (serpQueryCacheKey rawQuery numQueries researchGoal initialQuery
        depth breadth learnings).hashOfLearnings = learningsHash learnings ∧
    (serpQueryCacheKey rawQuery numQueries researchGoal initialQuery
        depth breadth learnings).rawQuery = rawQuery := by
  refine ⟨?_, ?_, ?_, ?_, ?_, rfl, rfl⟩
  · by_cases h : numQueries = 3 <;> simp [serpQueryCacheKey, h]
  · by_cases h : researchGoal = "Initial query" <;> simp [serpQueryCacheKey, h]
  · cases initialQuery with
    | none => simp [serpQueryCacheKey]
    | some v =>
      by_cases h : v = rawQuery <;> simp [serpQueryCacheKey, h]
  · by_cases h : depth = 1 <;> simp [serpQueryCacheKey, h]
  · by_cases h : breadth = 1 <;> simp [serpQueryCacheKey, h]

/-! ## C6 — `ProgressManager.updateProgress` ETA derivation

`progress-manager.ts`, lines 75–177.  Timestamps are `Date.now()`
milliseconds (`Int`); the float divisions are modelled over `ℚ`. -/

/-- One `ResearchProgress` value as consumed by `updateProgress` (number
fields as `Int`, `currentQuery` optional). -/
structure ProgressSnap where
  currentQuery : Option String
  currentDepth : Int
  totalDepth : Int
  currentBreadth : Int
  totalBreadth : Int
  totalQueries : Int
  completedQueries : Int
deriving DecidableEq, Repr

/-- One entry of the `rateWindow` history: `{ t: Date.now(), completed }`. -/
structure RateSample where
  t : Int
  completed : Int
deriving DecidableEq, Repr

/-- Mutable state of a `ProgressManager`: the last drawn progress (for the
redundant-update suppression) and the bounded sample window
(`maxWindow = 20`). -/
structure PMState where
  lastProgress : Option ProgressSnap
  rateWindow : List RateSample
deriving DecidableEq, Repr

/-- What the ETA portion of the overall line displays: the `'ETA: —'` dash
(unknown) or `ETA: ${mm}m ${ss}s`. -/
inductive EtaDisplay where
  | unknown : EtaDisplay
  | etaMmSs : Int → Int → EtaDisplay
deriving DecidableEq, Repr

/-- `Math.round` for the non-negative quantities rounded here. -/
def jsRound (q : ℚ) : Int := ⌊q + 1 / 2⌋

/-- The ETA computation of `updateProgress` (lines 97–120): with fewer than
two retained samples or no total the dash is kept; otherwise
`dCompleted = max(0, last.completed - first.completed)`,
`dTimeSec = max(0.001, (last.t - first.t)/1000)`,
`rate = dCompleted / dTimeSec`, `remaining = max(0, total - completed)`, and
`etaSec = rate > 0 ? Math.round(remaining / rate) : 0`, displayed as
`⌊etaSec / 60⌋` minutes and `etaSec % 60` seconds. -/
def computeEta (window : List RateSample) (totalQueries completedQueries : Int) :
    EtaDisplay :=
  if 2 ≤ window.length ∧ 0 < totalQueries then
    match window.head?, window.getLast? with
    | some first, some last =>
      let dCompleted : Int := max 0 (last.completed - first.completed)
      let dTimeSec : ℚ := max (1 / 1000) (((last.t - first.t : Int) : ℚ) / 1000)
      let rate : ℚ := (dCompleted : ℚ) / dTimeSec
      let remaining : Int := max 0 (totalQueries - completedQueries)
      let etaSec : Int := if 0 < rate then jsRound ((remaining : ℚ) / rate) else 0
      EtaDisplay.etaMmSs (etaSec / 60) (etaSec % 60)
    | _, _ => EtaDisplay.unknown
  else EtaDisplay.unknown

/-- `updateProgress(progress)` at wall-clock time `now`: skip the redraw when
none of `completedQueries`, `currentDepth`, `currentBreadth`, `currentQuery`
changed (returning `none`); otherwise push a sample, shift the window beyond
20 entries, and derive the displayed ETA. -/
def updateProgress (st : PMState) (now : Int) (p : ProgressSnap) :
    PMState × Option EtaDisplay :=
  let skip : Bool :=
    match st.lastProgress with
    | some lp =>
      lp.completedQueries = p.completedQueries ∧ lp.currentDepth = p.currentDepth ∧
        lp.currentBreadth = p.currentBreadth ∧ lp.currentQuery = p.currentQuery
    | none => false
  if skip then (st, none)
  else
    let pushed := st.rateWindow ++ [{ t := now, completed := p.completedQueries }]
    let window := if 20 < pushed.length then pushed.tail else pushed
    ({ lastProgress := some p, rateWindow := window },
      some (computeEta window p.totalQueries p.completedQueries))

/-- A first update: one sample in the window, ETA still the dash. -/
def c6Snap1 : ProgressSnap :=
  { currentQuery := none, currentDepth := 2, totalDepth := 2, currentBreadth := 4,
    totalBreadth := 4, totalQueries := 8, completedQueries := 0 }

/-- A second update one second later with a changed `currentQuery` and the
same `completedQueries`, so the redraw is not suppressed but the measured
rate is `0`. -/
def c6Snap2 : ProgressSnap :=
  { c6Snap1 with currentQuery := some "q2" }

/-- C6 counterexample: after two retained samples with unchanged
`completedQueries` the computed rate is zero, and the tracker displays
`ETA: 0m 0s` — not the unknown dash that the claim requires for a zero
rate (`etaSec` falls to the `: 0` arm of the ternary). -/
theorem updateProgress_zero_rate_counterexample :
    (updateProgress
        (updateProgress { lastProgress := none, rateWindow := [] } 0 c6Snap1).1
        1000 c6Snap2).2 = some (EtaDisplay.etaMmSs 0 0) ∧
      some (EtaDisplay.etaMmSs 0 0) ≠ some EtaDisplay.unknown := by
  constructor
  · simp [updateProgress, computeEta, c6Snap1, c6Snap2]
  · decide

/-- C6 (amended): the derivation never divides by zero (the denominator is
clamped to at least `1/1000`) and never yields a negative ETA — whenever a
numeric ETA is displayed, both fields are non-negative; when the rate is
positive the displayed value is `Math.round(remaining / rate)` split into
minutes and seconds; but a zero rate with two retained samples displays
`ETA: 0m 0s` rather than the unknown dash. -/
theorem computeEta_spec (window : List RateSample) (total completed : Int)
    (first last : RateSample)
    (hlen : 2 ≤ window.length) (htot : 0 < total)
    (hfirst : window.head? = some first) (hlast : window.getLast? = some last) :
    (∀ mm ss, computeEta window total completed = EtaDisplay.etaMmSs mm ss →
      0 ≤ mm ∧ 0 ≤ ss) ∧
    ((0 : ℚ) <
        (max 0 (last.completed - first.completed) : Int) /
          max (1 / 1000) (((last.t - first.t : Int) : ℚ) / 1000) →
      computeEta window total completed =
        EtaDisplay.etaMmSs
          (jsRound ((max 0 (total - completed) : Int) /
              ((max 0 (last.completed - first.completed) : Int) /
                max (1 / 1000) (((last.t - first.t : Int) : ℚ) / 1000))) / 60)
          (jsRound ((max 0 (total - completed) : Int) /
              ((max 0 (last.completed - first.completed) : Int) /
                max (1 / 1000) (((last.t - first.t : Int) : ℚ) / 1000))) % 60)) ∧
    (max 0 (last.completed - first.completed) = 0 →
      computeEta window total completed = EtaDisplay.etaMmSs 0 0) := by
  have hden : (0 : ℚ) < max (1 / 1000) (((last.t - first.t : Int) : ℚ) / 1000) :=
    lt_of_lt_of_le (by norm_num) (le_max_left _ _)
  have hunfold : computeEta window total completed =
      let dCompleted : Int := max 0 (last.completed - first.completed)
      let dTimeSec : ℚ := max (1 / 1000) (((last.t - first.t : Int) : ℚ) / 1000)
      let rate : ℚ := (dCompleted : ℚ) / dTimeSec
      let remaining : Int := max 0 (total - completed)
      let etaSec : Int := if 0 < rate then jsRound ((remaining : ℚ) / rate) else 0
      EtaDisplay.etaMmSs (etaSec / 60) (etaSec % 60) := by
    unfold computeEta
    rw [if_pos ⟨hlen, htot⟩, hfirst, hlast]
  refine ⟨?_, ?_, ?_⟩
  · intro mm ss hshow
    rw [hunfold] at hshow
    simp only at hshow
    set etaSec : Int :=
      if 0 < (max 0 (last.completed - first.completed) : Int) /
          max (1 / 1000) (((last.t - first.t : Int) : ℚ) / 1000) then
        jsRound ((max 0 (total - completed) : Int) /
          ((max 0 (last.completed - first.completed) : Int) /
            max (1 / 1000) (((last.t - first.t : Int) : ℚ) / 1000)))
      else 0 with hetaSec
    have hnonneg : 0 ≤ etaSec := by
      rw [hetaSec]
      split
      · rename_i hpos
        have hrem : (0 : ℚ) ≤ (max 0 (total - completed) : Int) := by
          push_cast
          exact le_max_left _ _
        have hdiv : (0 : ℚ) ≤ (max 0 (total - completed) : Int) /
            ((max 0 (last.completed - first.completed) : Int) /
              max (1 / 1000) (((last.t - first.t : Int) : ℚ) / 1000)) :=
          div_nonneg hrem (le_of_lt hpos)
        unfold jsRound
        have : (0 : ℚ) ≤ (max 0 (total - completed) : Int) /
            ((max 0 (last.completed - first.completed) : Int) /
              max (1 / 1000) (((last.t - first.t : Int) : ℚ) / 1000)) + 1 / 2 := by
          linarith
        exact Int.le_floor.mpr (by exact_mod_cast this)
      · exact le_refl 0
    cases hshow
    constructor
    · exact Int.ediv_nonneg hnonneg (by norm_num)
    · exact Int.emod_nonneg _ (by norm_num)
  · intro hrate
    rw [hunfold]
    simp only
    rw [if_pos hrate]
  · intro hzero
    rw [hunfold]
    simp only [hzero]
    rw [if_neg (by simp)]
    decide

/-- Witness for the amended C6 theorem at the concrete two-sample window of
the counterexample run. -/
theorem computeEta_spec_witness :
    computeEta [⟨0, 0⟩, ⟨1000, 0⟩] 8 0 = EtaDisplay.etaMmSs 0 0 :=
  (computeEta_spec [⟨0, 0⟩, ⟨1000, 0⟩] 8 0 ⟨0, 0⟩ ⟨1000, 0⟩
      (by decide) (by decide) rfl rfl).2.2 (by decide)

/-! ## C5 — `generateFeedback` extraction/repair protocol

`feedback.ts`, lines 168–330, together with `validateAcademicInput` and
`validateAcademicOutput` from `deep-research.ts`. -/

/-- Fuelled worker for `split(/\s+/)`: emit the accumulated token at each
whitespace run and skip the rest of the run.  Each step consumes at least one
character, so fuel `length + 1` suffices. -/
def wsSplitGo : Nat → List Char → List Char → List (List Char)
  | 0, acc, _ => [acc.reverse]
  | _ + 1, acc, [] => [acc.reverse]
  | fuel + 1, acc, c :: cs =>
    if isWs c then acc.reverse :: wsSplitGo fuel [] (cs.dropWhile isWs)
    else wsSplitGo fuel (c :: acc) cs

/-- `String.prototype.split(/\s+/)` (leading/trailing separators produce
empty tokens, exactly as in JavaScript). -/
def wsSplit (cs : List Char) : List (List Char) :=
  wsSplitGo (cs.length + 1) [] cs

/-- `validateAcademicInput`: `input.length > 10 && input.trim().split(/\s+/).length >= 3`. -/
def validateAcademicInput (input : String) : Bool :=
  10 < input.toList.length ∧ 3 ≤ (wsSplit (jsTrim input.toList)).length

/-- Try to match `\[\[\d+\]\]` (or, with `exact4`, `\[\[\d{4}\]\]`) at the
head of the text; on success return the digit group and the text after the
match.  A maximal digit run followed by `]]` is exactly what the regex
accepts: `\d+` cannot backtrack into `]]`, and `\d{4}` demands the character
after the fourth digit to be `]`. -/
def citeMatchAt (exact4 : Bool) (cs : List Char) : Option (List Char × List Char) :=
  match cs with
  | '[' :: '[' :: rest =>
    let ds := rest.takeWhile Char.isDigit
    if ds ≠ [] ∧ (exact4 → ds.length = 4) then
      match rest.dropWhile Char.isDigit with
      | ']' :: ']' :: tail => some (ds, tail)
      | _ => none
    else none
  | _ => none

/-- Fuelled global scan (`text.match(/...​/g)`): collect non-overlapping
matches left to right, resuming after each match. -/
def scanCitesGo (exact4 : Bool) : Nat → List Char → List (List Char)
  | 0, _ => []
  | _ + 1, [] => []
  | fuel + 1, c :: cs =>
    match citeMatchAt exact4 (c :: cs) with
    | some (ds, tail) => ds :: scanCitesGo exact4 fuel tail
    | none => scanCitesGo exact4 fuel cs

/-- All `[[…]]` citation matches of the text (digit groups). -/
def scanCites (exact4 : Bool) (cs : List Char) : List (List Char) :=
  scanCitesGo exact4 (cs.length + 1) cs

/-- `parseInt` of a digit group. -/
def digitsVal (ds : List Char) : Int :=
  ds.foldl (fun a c => a * 10 + ((c.toNat : Int) - 48)) 0

/-- `String.prototype.includes(pat)`. -/
def containsSub (pat : List Char) : List Char → Bool
  | [] => pat.isPrefixOf []
  | c :: cs => pat.isPrefixOf (c :: cs) || containsSub pat cs

/-- `validateAcademicOutput`: citation density
`(matches of [[\d+]]) / (wordCount / 100) > 1.5`, more than three
`[[\d{4}]]` references with year `> 2019`, and a literal
`'Conflict Disclosure:'` somewhere in the text (float division modelled over
`ℚ`; `split(/\s+/)` always returns at least one token, so the denominator is
never zero). -/
def validateAcademicOutput (text : String) : Bool :=
  let cs := text.toList
  let citationDensity : ℚ :=
    ((scanCites false cs).length : ℚ) / (((wsSplit cs).length : ℚ) / 100)
  let recentSources :=
    ((scanCites true cs).filter (fun ds => 2019 < digitsVal ds)).length
  let conflictDisclosures := containsSub "Conflict Disclosure:".toList cs
  decide ((3 : ℚ) / 2 < citationDensity) && decide (3 < recentSources) &&
    conflictDisclosures

/-- The validated feedback value (`FeedbackResponseSchema`). -/
structure FeedbackResponse where
  followUpQuestions : List String
  analysis : String
  confidenceScore : Option ℚ := none
deriving DecidableEq, Repr

/-- Environment of one `generateFeedback` invocation.  `llmFirst` is the text
returned by the initial schema-constrained generation call; `llmRepair prev`
is the text returned by the single repair call for previous output `prev`;
`parse` is `JSON.parse` + `FeedbackResponseSchema.parse` (`none` = throw);
`cacheLookup` is the result of the feedback-cache probe for this key.
`conductAnalysis` stands for the `conductResearch` analysis text that only
feeds the prompt. -/
structure FbEnv where
  llmFirst : String
  llmRepair : String → String
  parse : String → Option FeedbackResponse
  cacheLookup : Option FeedbackResponse
  conductAnalysis : String

/-- `generateFeedback({query, …})`, returning the produced value together
with the number of repair requests issued; `Except.error` is the
`'Query fails academic validation checks'` throw.  (The terminal progress
bars and cache/log writes are I/O-only and elided; an API throw from the
generation calls is caught by the outer `catch` and is outside the
first-parse-failed scope modelled by the oracles.) -/
def generateFeedback (env : FbEnv) (query : String) :
    Except Unit (FeedbackResponse × Nat) :=
  if ¬ validateAcademicInput query then Except.error ()
  else
    match env.cacheLookup with
    | some cached => Except.ok (cached, 0)
    | none =>
      let firstText := env.llmFirst
      let parsedPair :=
        match env.parse firstText with
        | some fb => (fb, 0)
        | none =>
          let repairedText := env.llmRepair firstText
          match env.parse repairedText with
          | some fb => (fb, 1)
          | none =>
            ({ followUpQuestions := [],
               analysis := "Failed to parse feedback response after repair." }, 1)
      if ¬ validateAcademicOutput parsedPair.1.analysis then
        Except.ok ({ followUpQuestions := [],
                     analysis := "Unable to generate valid feedback" }, parsedPair.2)
      else
        Except.ok parsedPair

theorem validateAcademicOutput_of_no_cites (text : String)
    (h : scanCites false text.toList = []) : validateAcademicOutput text = false := by
  unfold validateAcademicOutput
  simp only [h, List.length_nil, Nat.cast_zero, zero_div]
  have hfalse : ¬ ((3 : ℚ) / 2 < 0) := by norm_num
  simp [hfalse]

/-- C5: when the first parse of the generative response fails, exactly one
repair request is issued; and if the repaired output also fails to parse, the
call returns the safe default — empty `followUpQuestions` with a fixed
failure-analysis string — and no exception escapes (the result is always an
`Except.ok` value in this scope). -/
theorem generateFeedback_repair_protocol (env : FbEnv) (query : String)
    (hin : validateAcademicInput query = true)
    (hcache : env.cacheLookup = none)
    (hfail1 : env.parse env.llmFirst = none) :
    (∃ fb, generateFeedback env query = Except.ok (fb, 1)) ∧
    (env.parse (env.llmRepair env.llmFirst) = none →
      generateFeedback env query =
        Except.ok ({ followUpQuestions := [],
                     analysis := "Unable to generate valid feedback" }, 1)) := by
  have hsafe : validateAcademicOutput "Failed to parse feedback response after repair." = false :=
    validateAcademicOutput_of_no_cites _ (by decide)
  unfold generateFeedback
  simp only [hin, hcache, hfail1, not_true, if_false, ite_false, Bool.not_true,
    Bool.false_eq_true]
  constructor
  · cases hfail2 : env.parse (env.llmRepair env.llmFirst) with
    | none =>
      simp only [hfail2, hsafe]
      exact ⟨_, rfl⟩
    | some fb =>
      simp only [hfail2]
      by_cases hv : validateAcademicOutput fb.analysis = true
      · simp only [hv]
        exact ⟨fb, by simp⟩
      · simp only [Bool.not_eq_true] at hv
        simp only [hv]
        exact ⟨_, rfl⟩
  · intro hfail2
    simp only [hfail2, hsafe]
    simp

/-- Witness for C5 at a concrete query and an environment whose parses always
fail. -/
theorem generateFeedback_repair_protocol_witness :
    generateFeedback
        { llmFirst := "not json", llmRepair := fun _ => "still not json",
          parse := fun _ => none, cacheLookup := none, conductAnalysis := "" }
        "how do solar panels degrade" =
      Except.ok ({ followUpQuestions := [],
                   analysis := "Unable to generate valid feedback" }, 1) :=
  (generateFeedback_repair_protocol
      { llmFirst := "not json", llmRepair := fun _ => "still not json",
        parse := fun _ => none, cacheLookup := none, conductAnalysis := "" }
      "how do solar panels degrade" (by decide) rfl rfl).2 rfl

/-! ## C8 — `SemanticTextSplitter` / `semanticChunking` failure policy

`src/ai/providers.ts`: `SemanticTextSplitter.splitText` segments into
sentences with `/(?<=[.!?])\s+/`, falls back to the structural splitter only
when at most one sentence results, and otherwise embeds every sentence before
greedily grouping.  `semanticChunking` wraps the call in `try/catch` and on
any throw returns `[text]`.  The Gemini embedding call, the float
`cosineSimilarity`, and the `js-tiktoken` token counter are oracles. -/

/-- `replace(/\r\n?/g, '\n')`. -/
def normalizeNewlines : List Char → List Char
  | [] => []
  | '\r' :: '\n' :: cs => '\n' :: normalizeNewlines cs
  | '\r' :: cs => '\n' :: normalizeNewlines cs
  | c :: cs => c :: normalizeNewlines cs

/-- Sentence-ending characters of the split lookbehind `(?<=[.!?])`. -/
def isSentEnd (c : Char) : Bool :=
  c = '.' || c = '!' || c = '?'

/-- Fuelled worker for `split(/(?<=[.!?])\s+/)`: a maximal whitespace run
whose first character is preceded by `.`, `!` or `?` is a separator; any
other whitespace stays inside the current sentence.  `prev` is the character
before the current position (a space initially — position `0` has no
lookbehind). -/
def sentencesGo : Nat → Char → List Char → List Char → List (List Char)
  | 0, _, acc, _ => [acc.reverse]
  | _ + 1, _, acc, [] => [acc.reverse]
  | fuel + 1, prev, acc, c :: cs =>
    if isWs c && isSentEnd prev then
      acc.reverse :: sentencesGo fuel ' ' [] (cs.dropWhile isWs)
    else
      sentencesGo fuel c (c :: acc) cs

/-- `normalized.split(this.sentenceRegex)`. -/
def sentenceSplit (s : List Char) : List (List Char) :=
  sentencesGo (s.length + 1) ' ' [] s

/-- The cleaned, non-empty sentence list that `splitText` works on
(`.map(s => this.clean(s)).filter(Boolean)`; `clean` is the same
`replace(/\s+/g, ' ').trim()` as the structural splitter's normalisation). -/
def semSentences (text : List Char) : List (List Char) :=
  ((sentenceSplit (normalizeNewlines text)).map normalizeWs).filter (fun s => s ≠ [])

/-- Configuration of a `SemanticTextSplitter`
(defaults `MIN_CHUNK_SIZE = 140`, `CHUNK_OVERLAP = 20`). -/
structure SemCfg where
  chunkSize : Nat
  chunkOverlap : Nat

/-- External capabilities of the semantic splitter: `generateTextEmbedding`
(which may throw), the float `cosineSimilarity` of the `ai` package, and the
`js-tiktoken` token counter (both total). -/
structure SemEnv where
  embed : List Char → Except Unit (List ℚ)
  cosSim : List ℚ → List ℚ → ℚ
  tokenCount : List Char → Nat

/-- The inner `while` of the greedy grouping: keep merging the next sentence
into `current` while the merged token count stays within budget and the
centroid similarity is at least `0.65`; the centroid is updated as the
element-wise average when the dimensions match.  Returns the next index and
the finished chunk. -/
def semInner (env : SemEnv) (cfg : SemCfg) (sentences : List (List Char))
    (embs : List (List ℚ)) : Nat → Nat → List Char → List ℚ → Nat × List Char
  | 0, i, current, _ => (i, current)
  | fuel + 1, i, current, centroid =>
    match sentences.get? i with
    | none => (i, current)
    | some next =>
      if next = [] then (i, current)
      else
        let nextEmb := (embs.get? i).getD []
        let sim : ℚ :=
          if centroid ≠ [] ∧ nextEmb ≠ [] then env.cosSim centroid nextEmb else 0
        let merged := jsTrim (current ++ ' ' :: next)
        if env.tokenCount merged ≤ cfg.chunkSize ∧ (65 : ℚ) / 100 ≤ sim then
          let centroid2 :=
            if centroid ≠ [] ∧ nextEmb ≠ [] ∧ centroid.length = nextEmb.length then
              (centroid.zip nextEmb).map (fun p => (p.1 + p.2) / 2)
            else centroid
          semInner env cfg sentences embs fuel (i + 1) merged centroid2
        else (i, current)

/-- The outer `while` of the greedy grouping: open a chunk at sentence `i`,
let the inner loop extend it, then (when overlap is configured and sentences
remain) pull the index back one sentence — `i = max(start + 1, i - 1)` — so
the last sentence seeds the next chunk.  Each iteration advances the index by
at least one, so fuel `sentences.length + 1` is always sufficient. -/
def semOuter (env : SemEnv) (cfg : SemCfg) (sentences : List (List Char))
    (embs : List (List ℚ)) : Nat → Nat → List (List Char)
  | 0, _ => []
  | fuel + 1, i =>
    match sentences.get? i with
    | none => []
    | some first =>
      if first = [] then []
      else
        let start := i
        let centroid := (embs.get? i).getD []
        let stepOut :=
          semInner env cfg sentences embs sentences.length (i + 1) first centroid
        let i3 :=
          if stepOut.1 < sentences.length ∧ 0 < cfg.chunkOverlap then
            max (start + 1) (stepOut.1 - 1)
          else stepOut.1
        stepOut.2 :: semOuter env cfg sentences embs fuel i3

/-- `SemanticTextSplitter.splitText`: empty/whitespace text yields `[]`; at
most one sentence delegates to a `RecursiveCharacterTextSplitter` with the
same sizes; otherwise every sentence is embedded (`Promise.all` — one throw
fails the call) and the greedy grouping runs, its chunks cleaned and
filtered. -/
def semanticSplitText (env : SemEnv) (cfg : SemCfg) (text : List Char) :
    Except Unit (List (List Char)) :=
  if jsTrim text = [] then Except.ok []
  else
    let normalized := normalizeNewlines text
    let sentences := semSentences text
    if sentences.length ≤ 1 then
      Except.ok (splitText
        { chunkSize := cfg.chunkSize, chunkOverlap := cfg.chunkOverlap,
          separators := defaultSeparators } normalized)
    else
      match sentences.mapM env.embed with
      | Except.error e => Except.error e
      | Except.ok embs =>
        Except.ok
          (((semOuter env cfg sentences embs (sentences.length + 1) 0).map
              normalizeWs).filter (fun c => c ≠ []))

/-- `semanticChunking(text, splitter?)`: any throw from the splitter is
caught and the whole raw text is returned as the single chunk `[text]`. -/
def semanticChunking (env : SemEnv) (cfg : SemCfg) (text : List Char) :
    List (List Char) :=
  match semanticSplitText env cfg text with
  | Except.ok cs => cs
  | Except.error _ => [text]

/-- An environment whose embedding capability always throws. -/
def embedFailEnv : SemEnv :=
  { embed := fun _ => Except.error (), cosSim := fun _ _ => 0,
    tokenCount := fun s => s.length }

/-- C8 counterexample: on `"A.\n\nB."` (two sentences) with a throwing
embedding capability, `semanticChunking` returns the raw text as one chunk,
while the structural splitter at the same configuration returns the
normalised `"A. B."` — the fallback is *not* the structural splitter's
result. -/
theorem semanticChunking_counterexample :
    semanticChunking embedFailEnv { chunkSize := 140, chunkOverlap := 20 }
        "A.\n\nB.".toList = ["A.\n\nB.".toList] ∧
      splitText { chunkSize := 140, chunkOverlap := 20,
                  separators := defaultSeparators } "A.\n\nB.".toList
        = ["A. B.".toList] ∧
      ["A.\n\nB.".toList] ≠ ["A. B.".toList] := by
  refine ⟨by decide, by decide, by decide⟩

/-- C8 (amended): when the embedding capability throws, the semantic
segmentation does **not** fall back to the structural splitter — for
non-blank text with more than one sentence the caller receives the whole raw
text as a single chunk `[text]`; the structural splitter's output is returned
only on the pre-embedding path, when the text yields at most one sentence. -/
theorem semanticChunking_embed_failure (env : SemEnv) (cfg : SemCfg)
    (text : List Char)
    (hfail : ∀ s, env.embed s = Except.error ())
    (hblank : jsTrim text ≠ []) :
    (1 < (semSentences text).length →
      semanticChunking env cfg text = [text]) ∧
    ((semSentences text).length ≤ 1 →
      semanticChunking env cfg text =
        splitText { chunkSize := cfg.chunkSize, chunkOverlap := cfg.chunkOverlap,
                    separators := defaultSeparators } (normalizeNewlines text)) := by
  constructor
  · intro hgt
    obtain ⟨s, rest, hsent⟩ : ∃ s rest, semSentences text = s :: rest := by
      cases hs : semSentences text with
      | nil => rw [hs] at hgt; simp at hgt
      | cons s rest => exact ⟨s, rest, rfl⟩
    have hmap : (semSentences text).mapM env.embed = Except.error () := by
      rw [hsent]
      rw [List.mapM_cons, hfail s]
      rfl
    unfold semanticChunking semanticSplitText
    rw [if_neg hblank]
    simp only [if_neg (by omega : ¬ (semSentences text).length ≤ 1), hmap]
  · intro hle
    unfold semanticChunking semanticSplitText
    rw [if_neg hblank]
    simp only [if_pos hle]

/-- Witness for the amended C8 theorem at the counterexample's text and a
throwing embedder. -/
theorem semanticChunking_embed_failure_witness :
    semanticChunking embedFailEnv { chunkSize := 140, chunkOverlap := 20 }
        "A.\n\nB.".toList = ["A.\n\nB.".toList] :=
  (semanticChunking_embed_failure embedFailEnv
      { chunkSize := 140, chunkOverlap := 20 } "A.\n\nB.".toList
      (fun _ => rfl) (by decide)).1 (by decide)

/-! ## `deepResearch` — the recursion controller

`deep-research.ts`, lines 644–879.  Oracles: `env.serp` is the list of
SERP queries returned by `generateSerpQueries` (an external generative call
whose cache-key construction is verified separately above); `env.gemini` is
`callGeminiProConfigurable` composed with `processGeminiResponse` for one
query (only its `analysis` field survives to an observable position — the
`learnings`/`urls` assignments it feeds are overwritten on every path before
use); `env.gen` is one batched generation + `JSON.parse`/zod parse inside
`processSerpResult` (`Except.error` = a JSON.parse or provider throw that
rejects the batch, `Except.ok none` = schema `safeParse` failure, skipped).
Firecrawl is disabled in the source (`const result = { data: [] }`), which
the model keeps.  Progress mutation and logging are I/O-only and elided; the
model additionally returns the tree of recursive invocations and the list of
generation/dispatch events, which the source performs as side effects. -/

/-- `compact` (lodash) on strings: drop falsy entries (the empty string). -/
def compact (xs : List String) : List String :=
  xs.filter (fun s => s ≠ "")

/-- `Math.ceil(b / 2)` (with Lean's Euclidean `/` on `Int`,
`-(-b / 2) = ⌈b / 2⌉`). -/
def ceilHalf (b : Int) : Int :=
  -(-b / 2)

/-- `join("\n\n")`. -/
def strJoin2NL (xs : List String) : String :=
  String.intercalate "\n\n" xs

/-- One SERP query `{query, researchGoal}`. -/
structure SerpQuery where
  query : String
  researchGoal : String
deriving DecidableEq, Repr

/-- The observable part of `processGeminiResponse`'s output for one query. -/
structure GemOut where
  analysis : String
  learnings : List String
  urls : List String

/-- One Firecrawl search hit `{url?, markdown?}`. -/
structure SearchItem where
  url : Option String
  markdown : Option String

/-- A citation `{reference, context?}` of a `ResearchResult`. -/
structure Citation where
  reference : String
  context : Option String

/-- The `ProcessResult` returned by one `limitedProcessResult` worker
(the constant disabled-Firecrawl metadata payload is elided). -/
structure ProcessResult where
  analysis : String
  content : String
  sources : List String
  methodology : String
  limitations : String
  citations : List String
  learnings : List String
  visitedUrls : List String

/-- The `ResearchResult` returned by `deepResearch` (the constant
disabled-Firecrawl metadata payload is elided). -/
structure ResearchResult where
  analysis : String
  content : String
  sources : List String
  methodology : String
  limitations : String
  citations : List Citation
  learnings : List String
  visitedUrls : List String

/-- The empty `ResearchResult` object returned at the two base cases. -/
def emptyResearchResult : ResearchResult :=
  { analysis := "", content := "", sources := [], methodology := "",
    limitations := "", citations := [], learnings := [], visitedUrls := [] }

/-- The empty `ProcessResult` returned by the worker's guard and catch
paths. -/
def emptyProcessResult : ProcessResult :=
  { analysis := "", content := "", sources := [], methodology := "",
    limitations := "", citations := [], learnings := [], visitedUrls := [] }

/-- Externally observable generation events of the controller: one
`generateSerpQueries` call per non-terminal invocation, one dispatched
worker per SERP query. -/
inductive REvent where
  | genQueries : String → REvent
  | dispatch : String → REvent
deriving DecidableEq, Repr

/-- The tree of `deepResearch` invocations: each node records the `depth` and
`breadth` arguments of one invocation. -/
inductive CallTree where
  | node : Int → Int → List CallTree → CallTree

/-- Oracles of the controller (see the section comment). -/
structure DREnv where
  serp : String → Int → Int → List String → String → String → List SerpQuery
  gemini : String → GemOut
  gen : String → Except Unit (Option (List String))

/-- The research splitter of `createResearchSplitter()`:
`{chunkSize: 140, chunkOverlap: 20, separators: ['\n\n', '\n', ' ']}`. -/
def researchSplitterCfg : SplitterCfg :=
  { chunkSize := 140, chunkOverlap := 20,
    separators := [['\n', '\n'], ['\n'], [' ']] }

/-- `splitText` on `String`s. -/
def splitTextS (cfg : SplitterCfg) (s : String) : List String :=
  (splitText cfg s.toList).map (fun cs => String.mk cs)

/-- `processSerpResult({query, result, numLearnings})`: join the per-hit
markdown (falsy entries compacted), split with the research splitter, run one
batched generation per chunk (the prompt-template interpolation is absorbed
into `env.gen`), collect the learnings of every successfully parsed response
and truncate to `numLearnings`; `followUpQuestions` is always `[]`.  An
`Except.error` is a thrown `JSON.parse`/provider rejection, caught by the
worker. -/
def processSerpResult (env : DREnv) (_query : String) (data : List SearchItem)
    (numLearnings : Nat) : Except Unit (List String × List String) :=
  let contents := compact (data.map (fun it => it.markdown.getD ""))
  let chunks := splitTextS researchSplitterCfg (strJoin2NL contents)
  match chunks.mapM env.gen with
  | Except.error e => Except.error e
  | Except.ok parsed =>
    let learnings := parsed.foldl (fun acc p => acc ++ p.getD []) []
    Except.ok (learnings.take numLearnings, [])

/-- The aggregation step of `deepResearch` (line 858):
`learnings = compact(results.flatMap(result => result?.learnings))`. -/
def aggregateLearnings (results : List ProcessResult) : List String :=
  compact (results.flatMap ProcessResult.learnings)

/-- The aggregation step of `deepResearch` (line 857):
`visitedUrls = compact(results.flatMap(result => result?.visitedUrls))`. -/
def aggregateVisitedUrls (results : List ProcessResult) : List String :=
  compact (results.flatMap ProcessResult.visitedUrls)

/-- Output of one modelled `deepResearch` invocation: the returned
`ResearchResult`, the invocation tree, and the generation events. -/
structure DROut where
  result : ResearchResult
  tree : CallTree
  events : List REvent

/-- Output of one modelled worker: its `ProcessResult`, the recursive
invocation tree when it recursed, and its events. -/
structure WOut where
  res : ProcessResult
  tree : Option CallTree
  events : List REvent

/-- The worker's `ProcessResult` for the recursion branch: the deeper
`ResearchResult` with its citations flattened to their references. -/
def processFromDeeper (deeper : ResearchResult) : ProcessResult :=
  { analysis := deeper.analysis, content := deeper.content,
    sources := deeper.sources, methodology := deeper.methodology,
    limitations := deeper.limitations,
    citations := deeper.citations.map Citation.reference,
    learnings := deeper.learnings, visitedUrls := deeper.visitedUrls }

/-- The worker's `ProcessResult` at maximum depth (the leaf branch). -/
def leafProcess (g : GemOut) (newLearnings newUrls : List String) : ProcessResult :=
  { analysis := if g.analysis = "" then "No analysis available" else g.analysis,
    content := strJoin2NL newLearnings, sources := [],
    methodology := "Semantic chunking with Gemini Flash 2.5",
    limitations := "Current implementation focuses on text analysis only",
    citations := [], learnings := newLearnings, visitedUrls := newUrls }

/-- One `limitedProcessResult` worker for SERP query `sq`, with the recursive
`deepResearch` invocation abstracted as `recur` (applied to
`(nextQuery, newDepth, newBreadth, allLearnings, allUrls)`). -/
def drWorker (env : DREnv)
    (recur : String → Int → Int → List String → List String → DROut)
    (depth breadth : Int) (learnings visitedUrls : List String)
    (sq : SerpQuery) : WOut :=
  let g := env.gemini sq.query
  -- the `newLearnings = geminiResult.learnings; newUrls = geminiResult.urls`
  -- assignments are overwritten before any use on every path
  if visitedUrls.contains sq.query then
    ⟨emptyProcessResult, none, [REvent.dispatch sq.query]⟩
  else
    -- Firecrawl disabled: `const result = { data: [] }`
    let fdata : List SearchItem := []
    let newUrls := compact (fdata.filterMap SearchItem.url)
    let newBreadth := ceilHalf breadth
    let newDepth := depth - 1
    match processSerpResult env sq.query fdata 3 with
    | Except.error _ => ⟨emptyProcessResult, none, [REvent.dispatch sq.query]⟩
    | Except.ok ps =>
      let newLearnings := ps.1
      let allLearnings := learnings ++ newLearnings
      let allUrls := visitedUrls ++ newUrls
      if 0 < newDepth then
        let deeper := recur sq.query newDepth newBreadth allLearnings allUrls
        ⟨processFromDeeper deeper.result, some deeper.tree,
         REvent.dispatch sq.query :: deeper.events⟩
      else
        ⟨leafProcess g newLearnings newUrls, none, [REvent.dispatch sq.query]⟩

/-- Assemble the controller's own return value and tree from the worker
outputs (lines 855–879). -/
def drAggregate (query : String) (depth breadth : Int) (wouts : List WOut) : DROut :=
  let results := wouts.map WOut.res
  let visitedUrls2 := aggregateVisitedUrls results
  let learnings2 := aggregateLearnings results
  ⟨{ analysis := "", content := strJoin2NL learnings2, sources := [],
     methodology := "Semantic chunking with Gemini Flash 2.5",
     limitations := "Current implementation focuses on text analysis only",
     citations := [], learnings := learnings2, visitedUrls := visitedUrls2 },
   CallTree.node depth breadth (wouts.filterMap WOut.tree),
   REvent.genQueries query :: (wouts.map WOut.events).flatten⟩

/-- `deepResearch`, structured over explicit fuel: the wrapper below passes
`depth.toNat`, and every recursive call passes `depth - 1` in both positions,
so fuel `0` coincides exactly with the source's `depth <= 0` base case and
the fuel never runs out on any other path. -/
def deepResearchGo (env : DREnv) :
    Nat → String → String → String → Int → Int → List String → List String → DROut
  | 0, _, _, _, depth, breadth, _, _ =>
    ⟨emptyResearchResult, CallTree.node depth breadth [], []⟩
  | fuel + 1, query, researchGoal, initialQuery, depth, breadth,
      initialLearnings, initialVisitedUrls =>
    -- `let visitedUrls = [...initialVisitedUrls]; let learnings = [...initialLearnings]`
    let visitedUrls := initialVisitedUrls
    let learnings := initialLearnings
    if depth ≤ 0 then
      ⟨emptyResearchResult, CallTree.node depth breadth [], []⟩
    else if 20 < visitedUrls.length then
      ⟨emptyResearchResult, CallTree.node depth breadth [], []⟩
    else
      let serpQueries := env.serp query depth breadth learnings researchGoal initialQuery
      let wouts := serpQueries.map (drWorker env
        (fun q d b l v => deepResearchGo env fuel q researchGoal initialQuery d b l v)
        depth breadth learnings visitedUrls)
      drAggregate query depth breadth wouts

/-- `deepResearch({query, depth, breadth, learnings, visitedUrls, …})`. -/
def deepResearch (env : DREnv) (query : String) (depth breadth : Int)
    (learnings visitedUrls : List String) : DROut :=
  deepResearchGo env depth.toNat query "Deep dive research" query
    depth breadth learnings visitedUrls

/-! ## C2 — the terminal check of the recursion controller -/

/-- A demonstration environment used by the concrete witnesses below. -/
def drDemoEnv : DREnv :=
  { serp := fun _ _ _ _ _ _ => [⟨"sub1", "goal"⟩],
    gemini := fun _ => ⟨"", [], []⟩,
    gen := fun _ => Except.ok none }

/-- C2: whenever `depth <= 0` or more than 20 visited sources have
accumulated, `deepResearch` returns the empty result immediately — empty
learnings and visited sources — and performs no sub-query generation and no
worker dispatch (the event trace is empty; the model is total, so no error is
raised). -/
theorem deepResearch_base_case (env : DREnv) (query : String)
    (depth breadth : Int) (learnings visited : List String)
    (h : depth ≤ 0 ∨ 20 < visited.length) :
    (deepResearch env query depth breadth learnings visited).result
        = emptyResearchResult ∧
      (deepResearch env query depth breadth learnings visited).result.learnings = [] ∧
      (deepResearch env query depth breadth learnings visited).result.visitedUrls = [] ∧
      (deepResearch env query depth breadth learnings visited).events = [] := by
  have main : (deepResearch env query depth breadth learnings visited).result
      = emptyResearchResult ∧
      (deepResearch env query depth breadth learnings visited).events = [] := by
    unfold deepResearch
    rcases h with h | h
    · rw [Int.toNat_of_nonpos h]
      exact ⟨rfl, rfl⟩
    · cases hfuel : depth.toNat with
      | zero => exact ⟨rfl, rfl⟩
      | succ n =>
        unfold deepResearchGo
        by_cases hd : depth ≤ 0
        · rw [if_pos hd]
          exact ⟨rfl, rfl⟩
        · rw [if_neg hd, if_pos h]
          exact ⟨rfl, rfl⟩
  exact ⟨main.1, by rw [main.1]; rfl, by rw [main.1]; rfl, main.2⟩

/-- Witness for C2: at `depth = 0` (and separately at 21 visited sources) the
concrete run returns the empty result with no generation events. -/
theorem deepResearch_base_case_witness :
    (deepResearch drDemoEnv "q" 0 5 [] []).result = emptyResearchResult ∧
      (deepResearch drDemoEnv "q" 0 5 [] []).result.learnings = [] ∧
      (deepResearch drDemoEnv "q" 0 5 [] []).result.visitedUrls = [] ∧
      (deepResearch drDemoEnv "q" 0 5 [] []).events = [] :=
  deepResearch_base_case drDemoEnv "q" 0 5 [] [] (Or.inl (by decide))

/-! ## C3 — child budgets and nesting bound -/

/-- Does `c`'s root carry exactly the derived child budget of a
`(d, b)`-parent: `depth = d - 1` and `breadth = ceil(b / 2)`? -/
def childOk (d b : Int) : CallTree → Bool
  | .node d2 b2 _ => decide (d2 = d - 1) && decide (b2 = ceilHalf b)

mutual

/-- Every edge of the invocation tree derives the child budget correctly. -/
def edgesOkB : CallTree → Bool
  | .node d b cs => edgesOkChildren d b cs

/-- `edgesOkB` over a child list of a `(d, b)` node. -/
def edgesOkChildren : Int → Int → List CallTree → Bool
  | _, _, [] => true
  | d, b, c :: cs => childOk d b c && edgesOkB c && edgesOkChildren d b cs

end

mutual

/-- Number of nested invocations along the deepest path of the tree. -/
def heightT : CallTree → Nat
  | .node _ _ cs => 1 + heightChildren cs

/-- Maximum `heightT` over a child list. -/
def heightChildren : List CallTree → Nat
  | [] => 0
  | c :: cs => max (heightT c) (heightChildren cs)

end

theorem edgesOkChildren_of_forall (d b : Int) (cs : List CallTree)
    (h : ∀ c ∈ cs, childOk d b c = true ∧ edgesOkB c = true) :
    edgesOkChildren d b cs = true := by
  induction cs with
  | nil => rfl
  | cons c cs ih =>
    have hc := h c (by simp)
    rw [edgesOkChildren, hc.1, hc.2, ih (fun x hx => h x (by simp [hx]))]
    rfl

theorem heightChildren_le (cs : List CallTree) (k : Nat)
    (h : ∀ c ∈ cs, heightT c ≤ k) : heightChildren cs ≤ k := by
  induction cs with
  | nil => simp [heightChildren]
  | cons c cs ih =>
    rw [heightChildren]
    exact max_le (h c (by simp)) (ih (fun x hx => h x (by simp [hx])))

theorem deepResearchGo_tree_root (env : DREnv) (fuel : Nat) (query rg iq : String)
    (depth breadth : Int) (l v : List String) :
    ∃ cs, (deepResearchGo env fuel query rg iq depth breadth l v).tree
        = CallTree.node depth breadth cs := by
  cases fuel with
  | zero => exact ⟨[], rfl⟩
  | succ n =>
    unfold deepResearchGo
    by_cases hd : depth ≤ 0
    · rw [if_pos hd]; exact ⟨[], rfl⟩
    · rw [if_neg hd]
      by_cases hv : 20 < v.length
      · rw [if_pos hv]; exact ⟨[], rfl⟩
      · rw [if_neg hv]; exact ⟨_, rfl⟩

theorem drWorker_tree_some (env : DREnv)
    (recur : String → Int → Int → List String → List String → DROut)
    (depth breadth : Int) (learnings visitedUrls : List String) (sq : SerpQuery)
    (c : CallTree)
    (h : (drWorker env recur depth breadth learnings visitedUrls sq).tree = some c) :
    0 < depth - 1 ∧
      ∃ ls us, c = (recur sq.query (depth - 1) (ceilHalf breadth) ls us).tree := by
  unfold drWorker at h
  by_cases hvis : visitedUrls.contains sq.query
  · rw [if_pos hvis] at h
    exact absurd h (by simp)
  · rw [if_neg hvis] at h
    simp only at h
    cases hps : processSerpResult env sq.query [] 3 with
    | error e =>
      rw [hps] at h
      exact absurd h (by simp)
    | ok ps =>
      rw [hps] at h
      simp only at h
      by_cases hdep : 0 < depth - 1
      · rw [if_pos hdep] at h
        refine ⟨hdep, learnings ++ ps.1, visitedUrls ++ compact ([] : List String), ?_⟩
        simp only [Option.some_inj] at h
        exact h.symm
      · rw [if_neg hdep] at h
        exact absurd h (by simp)

theorem deepResearchGo_edges_height (env : DREnv) :
    ∀ (fuel : Nat) (query rg iq : String) (depth breadth : Int)
      (l v : List String),
      edgesOkB (deepResearchGo env fuel query rg iq depth breadth l v).tree = true ∧
      heightT (deepResearchGo env fuel query rg iq depth breadth l v).tree
        ≤ max 1 depth.toNat := by
  intro fuel
  induction fuel with
  | zero =>
    intro query rg iq depth breadth l v
    constructor
    · rfl
    · show heightT (CallTree.node depth breadth []) ≤ max 1 depth.toNat
      rw [heightT, heightChildren]
      exact le_max_left 1 _
  | succ n ih =>
    intro query rg iq depth breadth l v
    by_cases hd : depth ≤ 0
    · have htree : (deepResearchGo env (n + 1) query rg iq depth breadth l v).tree
          = CallTree.node depth breadth [] := by
        unfold deepResearchGo
        rw [if_pos hd]
      rw [htree]
      refine ⟨rfl, ?_⟩
      rw [heightT, heightChildren]
      exact le_max_left 1 _
    · by_cases hv : 20 < v.length
      · have htree : (deepResearchGo env (n + 1) query rg iq depth breadth l v).tree
            = CallTree.node depth breadth [] := by
          unfold deepResearchGo
          rw [if_neg hd, if_pos hv]
        rw [htree]
        refine ⟨rfl, ?_⟩
        rw [heightT, heightChildren]
        exact le_max_left 1 _
      · have htree : (deepResearchGo env (n + 1) query rg iq depth breadth l v).tree
            = CallTree.node depth breadth
              (((env.serp query depth breadth l rg iq).map (drWorker env
                (fun q d b l2 v2 => deepResearchGo env n q rg iq d b l2 v2)
                depth breadth l v)).filterMap WOut.tree) := by
          conv_lhs => rw [deepResearchGo]
          rw [if_neg hd, if_neg hv]
          rfl
        rw [htree]
        have hchild : ∀ c ∈ ((env.serp query depth breadth l rg iq).map (drWorker env
            (fun q d b l2 v2 => deepResearchGo env n q rg iq d b l2 v2)
            depth breadth l v)).filterMap WOut.tree,
            (childOk depth breadth c = true ∧ edgesOkB c = true) ∧
              heightT c ≤ depth.toNat - 1 := by
          intro c hc
          rw [List.mem_filterMap] at hc
          obtain ⟨w, hw, hwt⟩ := hc
          rw [List.mem_map] at hw
          obtain ⟨sq, _, rfl⟩ := hw
          obtain ⟨hdep, ls, us, hctree⟩ :=
            drWorker_tree_some env _ depth breadth l v sq c hwt
          obtain ⟨cs2, hroot⟩ :=
            deepResearchGo_tree_root env n sq.query rg iq (depth - 1)
              (ceilHalf breadth) ls us
          obtain ⟨hedge, hheight⟩ := ih sq.query rg iq (depth - 1) (ceilHalf breadth) ls us
          subst hctree
          refine ⟨⟨?_, hedge⟩, ?_⟩
          · rw [hroot, childOk]
            simp
          · refine le_trans hheight ?_
            have h1 : (1 : Int) ≤ depth - 1 := hdep
            have : max 1 (depth - 1).toNat = (depth - 1).toNat := by
              rw [max_eq_right]
              omega
            rw [this]
            omega
        constructor
        · rw [edgesOkB]
          exact edgesOkChildren_of_forall _ _ _ (fun c hc => (hchild c hc).1)
        · rw [heightT]
          have hmax : heightChildren _ ≤ depth.toNat - 1 :=
            heightChildren_le _ _ (fun c hc => (hchild c hc).2)
          have hd1 : 1 ≤ depth.toNat := by omega
          calc 1 + heightChildren _ ≤ 1 + (depth.toNat - 1) := by omega
            _ = depth.toNat := by omega
            _ ≤ max 1 depth.toNat := le_max_right 1 _

/-- C3: in the modelled invocation tree of `deepResearch`, every child
invocation runs with `depth` exactly one less than its parent and `breadth`
exactly `ceil(parent breadth / 2)`; consequently, for a positive initial
depth, the nesting of recursive invocations never exceeds the initial
`depth`. -/
theorem deepResearch_tree_budgets (env : DREnv) (query : String)
    (depth breadth : Int) (learnings visited : List String)
    (hpos : 1 ≤ depth) :
    edgesOkB (deepResearch env query depth breadth learnings visited).tree = true ∧
      heightT (deepResearch env query depth breadth learnings visited).tree
        ≤ depth.toNat := by
  obtain ⟨hedges, hheight⟩ := deepResearchGo_edges_height env depth.toNat query
    "Deep dive research" query depth breadth learnings visited
  refine ⟨hedges, ?_⟩
  unfold deepResearch
  refine le_trans hheight ?_
  rw [max_eq_right (by omega)]

/-- Witness for C3 at a concrete depth-2, breadth-3 run. -/
theorem deepResearch_tree_budgets_witness :
    edgesOkB (deepResearch drDemoEnv "q" 2 3 [] []).tree = true ∧
      heightT (deepResearch drDemoEnv "q" 2 3 [] []).tree ≤ 2 :=
  deepResearch_tree_budgets drDemoEnv "q" 2 3 [] [] (by decide)

/-! ## C9 — aggregation of one dispatch round -/

theorem count_flatMap_eq_sum (s : String) (f : ProcessResult → List String) :
    ∀ results : List ProcessResult,
      (results.flatMap f).count s = (results.map (fun r => (f r).count s)).sum := by
  intro results
  induction results with
  | nil => rfl
  | cons r rs ih =>
    rw [List.flatMap_cons, List.count_append, List.map_cons, List.sum_cons, ih]

theorem count_compact (s : String) (hs : s ≠ "") (l : List String) :
    (compact l).count s = l.count s := by
  unfold compact
  induction l with
  | nil => rfl
  | cons x xs ih =>
    by_cases hx : x = ""
    · subst hx
      rw [List.filter_cons_of_neg (by simp)]
      rw [List.count_cons_of_ne hs xs]
      exact ih
    · rw [List.filter_cons_of_pos (by simp [hx])]
      by_cases hxs : x = s
      · subst hxs
        rw [List.count_cons_self, List.count_cons_self, ih]
      · rw [List.count_cons_of_ne (by exact fun h => hxs h.symm),
          List.count_cons_of_ne (by exact fun h => hxs h.symm), ih]

/-- C9 (amended): the accumulated learnings and visited sources of one
dispatch round are the **concatenation** of the per-worker lists in dispatch
order with falsy (empty) strings removed — duplicates are preserved: every
non-empty string occurs in the aggregate exactly as many times as it occurs
across the workers in total.  No deduplication is performed. -/
theorem aggregate_concatenation (results : List ProcessResult) (s : String)
    (hs : s ≠ "") :
    (aggregateLearnings results).count s
        = (results.map (fun r => r.learnings.count s)).sum ∧
      (aggregateVisitedUrls results).count s
        = (results.map (fun r => r.visitedUrls.count s)).sum := by
  constructor
  · unfold aggregateLearnings
    rw [count_compact s hs, count_flatMap_eq_sum]
  · unfold aggregateVisitedUrls
    rw [count_compact s hs, count_flatMap_eq_sum]

/-- Two worker results carrying the same learning and the same source. -/
def c9Worker : ProcessResult :=
  { emptyProcessResult with learnings := ["x"], visitedUrls := ["u"] }

/-- C9 counterexample: when two workers of one dispatch round return the same
non-empty learning `"x"` (and the same source `"u"`), the aggregation of
lines 857–858 keeps both copies — the accumulated collections are not a
deduplicated union, and the string `"x"` occurs more than once. -/
theorem aggregate_counterexample :
    aggregateLearnings [c9Worker, c9Worker] = ["x", "x"] ∧
      aggregateVisitedUrls [c9Worker, c9Worker] = ["u", "u"] ∧
      ¬ (aggregateLearnings [c9Worker, c9Worker]).Nodup := by
  refine ⟨by decide, by decide, by decide⟩

/-- Witness for the amended C9 theorem at the duplicate-carrying round. -/
theorem aggregate_concatenation_witness :
    (aggregateLearnings [c9Worker, c9Worker]).count "x"
        = ([c9Worker, c9Worker].map (fun r => r.learnings.count "x")).sum :=
  (aggregate_concatenation [c9Worker, c9Worker] "x" (by decide)).1

/-! ## C10 — the caller's arrays are never mutated

JavaScript arrays are heap references.  To state the frame property the
controller is re-threaded through an explicit store of array cells: a `Nat`
reference indexes a cell holding a `List String`.  Every array that
`deepResearch` passes by reference is modelled as a cell: the caller's two
input arrays, the entry copies `[...initialVisitedUrls]` /
`[...initialLearnings]`, and the fresh `allLearnings` / `allUrls` arrays
handed to each recursive call.  All array-producing operations in the source
(`[...]` spreads, `flatMap`, `compact`, `map`) allocate fresh cells and no
operation writes an existing cell — the source contains no `push`/`splice`
on these arrays, only rebinding of `let` locals — which is exactly what the
frame theorem below verifies.  Value-typed intermediates that are never
shared with a callee stay plain values. -/

/-- The array store. -/
abbrev Store := List (List String)

/-- Dereference a cell. -/
def storeRead (st : Store) (r : Nat) : List String :=
  (st.get? r).getD []

/-- Allocate a fresh cell; returns the extended store and the new
reference. -/
def storeAlloc (st : Store) (v : List String) : Store × Nat :=
  (st ++ [v], st.length)

/-- Store-threaded `limitedProcessResult` worker (one `foldl` step over the
SERP queries): allocates the `allLearnings`/`allUrls` arrays and hands their
references to the recursion `recur`. -/
def drWorkerRef (env : DREnv)
    (recur : Store → String → Int → Int → Nat → Nat → Store × ResearchResult)
    (depth breadth : Int) (learnings visitedUrls : List String)
    (acc : Store × List ProcessResult) (sq : SerpQuery) :
    Store × List ProcessResult :=
  let g := env.gemini sq.query
  if visitedUrls.contains sq.query then
    (acc.1, acc.2 ++ [emptyProcessResult])
  else
    let fdata : List SearchItem := []
    let newUrls := compact (fdata.filterMap SearchItem.url)
    let newBreadth := ceilHalf breadth
    let newDepth := depth - 1
    match processSerpResult env sq.query fdata 3 with
    | Except.error _ => (acc.1, acc.2 ++ [emptyProcessResult])
    | Except.ok ps =>
      let newLearnings := ps.1
      let allocL := storeAlloc acc.1 (learnings ++ newLearnings)
      let allocU := storeAlloc allocL.1 (visitedUrls ++ newUrls)
      if 0 < newDepth then
        let deeper := recur allocU.1 sq.query newDepth newBreadth allocL.2 allocU.2
        (deeper.1, acc.2 ++ [processFromDeeper deeper.2])
      else
        (allocU.1, acc.2 ++ [leafProcess g newLearnings newUrls])

/-- Store-threaded `deepResearch`: the caller's arrays arrive as references
`rL`/`rV`; entry copies them (lines 657–658) into fresh cells before the
terminal checks run. -/
def deepResearchRefGo (env : DREnv) :
    Nat → Store → String → String → String → Int → Int → Nat → Nat →
      Store × ResearchResult
  | 0, st, _, _, _, _, _, rL, rV =>
    let allocV := storeAlloc st (storeRead st rV)
    let allocL := storeAlloc allocV.1 (storeRead allocV.1 rL)
    (allocL.1, emptyResearchResult)
  | fuel + 1, st, query, researchGoal, initialQuery, depth, breadth, rL, rV =>
    let allocV := storeAlloc st (storeRead st rV)
    let allocL := storeAlloc allocV.1 (storeRead allocV.1 rL)
    let st2 := allocL.1
    let visitedUrls := storeRead st2 allocV.2
    let learnings := storeRead st2 allocL.2
    if depth ≤ 0 then (st2, emptyResearchResult)
    else if 20 < visitedUrls.length then (st2, emptyResearchResult)
    else
      let serpQueries := env.serp query depth breadth learnings researchGoal initialQuery
      let folded := serpQueries.foldl
        (drWorkerRef env
          (fun st3 q d b r1 r2 =>
            deepResearchRefGo env fuel st3 q researchGoal initialQuery d b r1 r2)
          depth breadth learnings visitedUrls)
        (st2, ([] : List ProcessResult))
      let results := folded.2
      (folded.1,
        { analysis := "", content := strJoin2NL (aggregateLearnings results),
          sources := [], methodology := "Semantic chunking with Gemini Flash 2.5",
          limitations := "Current implementation focuses on text analysis only",
          citations := [], learnings := aggregateLearnings results,
          visitedUrls := aggregateVisitedUrls results })

/-- Store-threaded `deepResearch` wrapper. -/
def deepResearchRef (env : DREnv) (st : Store) (query : String)
    (depth breadth : Int) (rL rV : Nat) : Store × ResearchResult :=
  deepResearchRefGo env depth.toNat st query "Deep dive research" query
    depth breadth rL rV

theorem drWorkerRef_extends (env : DREnv)
    (recur : Store → String → Int → Int → Nat → Nat → Store × ResearchResult)
    (hrec : ∀ st q d b r1 r2, ∃ ext, (recur st q d b r1 r2).1 = st ++ ext)
    (depth breadth : Int) (learnings visitedUrls : List String)
    (acc : Store × List ProcessResult) (sq : SerpQuery) :
    ∃ ext, (drWorkerRef env recur depth breadth learnings visitedUrls acc sq).1
        = acc.1 ++ ext := by
  unfold drWorkerRef
  by_cases hvis : visitedUrls.contains sq.query
  · rw [if_pos hvis]
    exact ⟨[], by simp⟩
  · rw [if_neg hvis]
    simp only
    cases hps : processSerpResult env sq.query [] 3 with
    | error e => exact ⟨[], by simp⟩
    | ok ps =>
      simp only
      by_cases hdep : 0 < depth - 1
      · rw [if_pos hdep]
        simp only [storeAlloc]
        obtain ⟨ext, hext⟩ := hrec
          ((acc.1 ++ [learnings ++ ps.1]) ++
            [visitedUrls ++ compact (([] : List SearchItem).filterMap SearchItem.url)])
          sq.query (depth - 1) (ceilHalf breadth) acc.1.length
          (acc.1 ++ [learnings ++ ps.1]).length
        rw [hext]
        exact ⟨[learnings ++ ps.1] ++
          [visitedUrls ++ compact (([] : List SearchItem).filterMap SearchItem.url)]
          ++ ext, by simp⟩
      · rw [if_neg hdep]
        refine ⟨[learnings ++ ps.1,
          visitedUrls ++ compact (([] : List SearchItem).filterMap SearchItem.url)], ?_⟩
        simp [storeAlloc]

theorem foldl_extends (step : (Store × List ProcessResult) → SerpQuery →
      Store × List ProcessResult)
    (hstep : ∀ acc sq, ∃ ext, (step acc sq).1 = acc.1 ++ ext) :
    ∀ (l : List SerpQuery) (acc : Store × List ProcessResult),
      ∃ ext, (l.foldl step acc).1 = acc.1 ++ ext := by
  intro l
  induction l with
  | nil => exact fun acc => ⟨[], by simp⟩
  | cons sq rest ih =>
    intro acc
    obtain ⟨e1, he1⟩ := hstep acc sq
    obtain ⟨e2, he2⟩ := ih (step acc sq)
    exact ⟨e1 ++ e2, by rw [List.foldl_cons, he2, he1, List.append_assoc]⟩

theorem deepResearchRefGo_extends (env : DREnv) :
    ∀ (fuel : Nat) (st : Store) (query rg iq : String) (depth breadth : Int)
      (rL rV : Nat),
      ∃ ext, (deepResearchRefGo env fuel st query rg iq depth breadth rL rV).1
          = st ++ ext := by
  intro fuel
  induction fuel with
  | zero =>
    intro st query rg iq depth breadth rL rV
    refine ⟨[storeRead st rV, storeRead (st ++ [storeRead st rV]) rL], ?_⟩
    simp [deepResearchRefGo, storeAlloc]
  | succ n ih =>
    intro st query rg iq depth breadth rL rV
    unfold deepResearchRefGo
    by_cases hd : depth ≤ 0
    · rw [if_pos hd]
      refine ⟨[storeRead st rV, storeRead (st ++ [storeRead st rV]) rL], ?_⟩
      simp [storeAlloc]
    · rw [if_neg hd]
      simp only [storeAlloc]
      by_cases hv : 20 < (storeRead ((st ++ [storeRead st rV]) ++
          [storeRead (st ++ [storeRead st rV]) rL]) st.length).length
      · rw [if_pos hv]
        refine ⟨[storeRead st rV, storeRead (st ++ [storeRead st rV]) rL], ?_⟩
        simp
      · rw [if_neg hv]
        obtain ⟨ext, hext⟩ := foldl_extends _
          (fun acc sq => drWorkerRef_extends env _
            (fun st3 q d b r1 r2 => ih st3 q rg iq d b r1 r2) depth breadth _ _ acc sq)
          (env.serp query depth breadth _ rg iq)
          ((st ++ [storeRead st rV]) ++ [storeRead (st ++ [storeRead st rV]) rL], [])
        simp only at hext
        rw [hext]
        exact ⟨[storeRead st rV] ++ [storeRead (st ++ [storeRead st rV]) rL] ++ ext,
          by simp⟩

/-- C10: `deepResearch` never mutates the caller-provided `learnings` and
`visitedUrls` arrays: it copies them on entry (`[...initialLearnings]`,
`[...initialVisitedUrls]`) and thereafter only allocates fresh arrays and
rebinds its own locals, so after the call every pre-existing cell of the
store — in particular the two input arrays — holds exactly the elements it
held before the call. -/
theorem deepResearchRef_frame (env : DREnv) (st : Store) (query : String)
    (depth breadth : Int) (rL rV : Nat) (i : Nat) (hi : i < st.length) :
    ((deepResearchRef env st query depth breadth rL rV).1).get? i
        = st.get? i := by
  obtain ⟨ext, hext⟩ := deepResearchRefGo_extends env depth.toNat st query
    "Deep dive research" query depth breadth rL rV
  unfold deepResearchRef
  rw [hext]
  rw [List.get?_eq_getElem?, List.get?_eq_getElem?]
  exact List.getElem?_append_left hi

/-- Witness for C10 at a concrete store whose cells 0 and 1 are the caller's
arrays. -/
theorem deepResearchRef_frame_witness :
    ((deepResearchRef drDemoEnv [["l1"], ["u1"]] "q" 2 3 0 1).1).get? 0
        = some ["l1"] ∧
      ((deepResearchRef drDemoEnv [["l1"], ["u1"]] "q" 2 3 0 1).1).get? 1
        = some ["u1"] := by
  constructor
  · rw [deepResearchRef_frame drDemoEnv [["l1"], ["u1"]] "q" 2 3 0 1 0 (by decide)]
    rfl
  · rw [deepResearchRef_frame drDemoEnv [["l1"], ["u1"]] "q" 2 3 0 1 1 (by decide)]
    rfl
